import Mathlib

/-!
Shallow embedding of the huginn-bundler version model and build lifecycle
(src/types.ts, src/utils.ts and the most recent CLI entry in src/unnamed/part_002).

Text is modelled as `List Char`.  JavaScript numbers appearing in the version
model are modelled as `Option Int`, where `none` stands for `NaN` (comparisons
with `NaN` are always false, and `NaN` renders as "NaN").  A `Version`'s patch
component is `Option (Option Int)`: the outer `none` is TypeScript `undefined`
(the patch segment was absent), `some none` is `NaN`, `some (some k)` a number.
-/

abbrev Str := List Char

/-- Character data of a string literal, used to write `Str` values readably. -/
def str (s : String) : Str := s.data

/-- `BuildType` from src/types.ts: the two artifact lineages. -/
inductive BuildType
  | RELEASE
  | DEBUG
deriving DecidableEq

/-- `Version` from src/types.ts: `patch` is optional (`Option (Option Int)`:
outer layer = present/absent, inner layer = number/NaN); `major`/`minor` are
numbers that may be `NaN` (`none`) since `parseInt` can produce `NaN`. -/
structure Version where
  major : Option Int
  minor : Option Int
  patch : Option (Option Int)
deriving DecidableEq

/-- `AppVersion` from src/types.ts. -/
structure AppVersion where
  type : BuildType
  version : Version
deriving DecidableEq

/-- One located file (name plus resolved path), as in `BuildFiles` of src/types.ts. -/
structure FileRef where
  name : Str
  path : Str
deriving DecidableEq

/-- `BuildFiles` from src/types.ts. -/
structure BuildFiles where
  zipFile : FileRef
  sigFile : FileRef
deriving DecidableEq

/-- JavaScript `<` on numbers; any comparison involving `NaN` is false. -/
def ltN (x y : Option Int) : Bool :=
  match x, y with
  | some a, some b => decide (a < b)
  | _, _ => false

/-- JavaScript `===` on numbers; `NaN === NaN` is false. -/
def eqN (x y : Option Int) : Bool :=
  match x, y with
  | some a, some b => decide (a = b)
  | _, _ => false

/-- Decimal digit characters. -/
def isDigitCh (c : Char) : Bool := decide (48 ≤ c.toNat) && decide (c.toNat ≤ 57)

/-- Whitespace stripped by JavaScript's `parseInt` / `String.prototype.trim`. -/
def jsWs (c : Char) : Bool :=
  decide (c = ' ') || decide (c = '\t') || decide (c = '\n') || decide (c = '\r') ||
  decide (c = '\x0b') || decide (c = '\x0c')

/-- The decimal digit character for `n < 10`. -/
def digitCh (n : Nat) : Char := Char.ofNat (48 + n)

/-- Numeric value of a digit character. -/
def digitVal (c : Char) : Nat := c.toNat - 48

/-- Value of a list of decimal digit characters, most significant first. -/
def digitsVal (ds : Str) : Nat := ds.foldl (fun a c => a * 10 + digitVal c) 0

/-- Fuel-driven decimal rendering of a natural number (fuel ≥ n + 1 suffices). -/
def renderNatAux : Nat → Nat → Str
  | 0, _ => []
  | fuel + 1, n => if n < 10 then [digitCh n] else renderNatAux fuel (n / 10) ++ [digitCh (n % 10)]

/-- Decimal rendering of a natural number, as JavaScript template interpolation does. -/
def renderNat (n : Nat) : Str := renderNatAux (n + 1) n

/-- Decimal rendering of an integer. -/
def renderInt (i : Int) : Str :=
  if i < 0 then '-' :: renderNat i.natAbs else renderNat i.toNat

/-- JavaScript rendering of a number: `NaN` renders as "NaN". -/
def renderNum (x : Option Int) : Str :=
  match x with
  | none => str "NaN"
  | some i => renderInt i

/-- Leading-digits value used by `parseIntTS`: `NaN` (`none`) when no digit leads. -/
def digitsPrefixVal (l : Str) : Option Nat :=
  let ds := l.takeWhile isDigitCh
  if ds.isEmpty then none else some (digitsVal ds)

/-- JavaScript `parseInt(s)` (no radix argument), modelled for decimal inputs:
leading whitespace is skipped, an optional sign is read, then the longest
leading run of digits; `NaN` (`none`) when no digits are found.  (The `0x` hex
prefix of `parseInt` is not modelled; no input in this development exercises it.) -/
def parseIntTS (s : Str) : Option Int :=
  match s.dropWhile jsWs with
  | [] => none
  | c :: r =>
    if c = '-' then (digitsPrefixVal r).map (fun n => -(n : Int))
    else if c = '+' then (digitsPrefixVal r).map (fun n => (n : Int))
    else (digitsPrefixVal (c :: r)).map (fun n => (n : Int))

/-- `String.prototype.split` with a single-character separator. -/
def splitOnChar (sep : Char) : Str → List Str
  | [] => [[]]
  | c :: cs =>
    if c = sep then [] :: splitOnChar sep cs
    else
      match splitOnChar sep cs with
      | [] => [[c]]
      | l :: ls => (c :: l) :: ls

/-- `Array.prototype.join` with a single-character separator. -/
def joinWith (sep : Char) : List Str → Str
  | [] => []
  | [l] => l
  | l :: l₂ :: ls => l ++ sep :: joinWith sep (l₂ :: ls)

/-- `stringToVersion` from src/utils.ts lines 66-75: splits off a `_`-suffix,
splits the remainder on `.`, errors when fewer than two segments are present,
and otherwise parses each segment with `parseInt` (an empty third segment is
falsy, hence `undefined` patch). -/
def stringToVersion (version : Str) : Except String Version :=
  let wholeSplit := splitOnChar '_' version
  let versionSplit := splitOnChar '.' (wholeSplit.headD [])
  let patch := versionSplit.get? 2
  if versionSplit.length < 2 then Except.error "Version string was invalid"
  else Except.ok
    { major := parseIntTS (versionSplit.headD [])
      minor := parseIntTS (versionSplit.getD 1 [])
      patch :=
        match patch with
        | some p => if p.isEmpty then none else some (parseIntTS p)
        | none => none }

/-- `versionToString` from src/utils.ts lines 80-82: template interpolation of
the three components; an absent patch interpolates as "undefined",
a `NaN` component as "NaN". -/
def versionToString (version : Version) : Str :=
  renderNum version.major ++ str "." ++ renderNum version.minor ++ str "." ++
    (match version.patch with
     | none => str "undefined"
     | some x => renderNum x)

/-- `getVersionSuffix` from src/utils.ts lines 87-89. -/
def getVersionSuffix (type : BuildType) : Str :=
  if type = BuildType.DEBUG then str "_debug" else str "_release"

/-- `String.prototype.endsWith`. -/
def strEndsWith (sfx s : Str) : Bool := List.isSuffixOf sfx s

/-- `String.prototype.includes` (substring containment). -/
def strIncludes (needle : Str) : Str → Bool
  | [] => needle.isEmpty
  | c :: t => List.isPrefixOf needle (c :: t) || strIncludes needle t

/-- `getFolderBuildType` from src/utils.ts lines 94-98. -/
def getFolderBuildType (folderName : Str) : BuildType :=
  if strEndsWith (str "_debug") folderName then BuildType.DEBUG
  else if strEndsWith (str "_release") folderName then BuildType.RELEASE
  else BuildType.DEBUG

/-- `path.resolve(dir, name)`, modelled as separator-joined concatenation. -/
def joinPath (dir name : Str) : Str := dir ++ '/' :: name

/-- `getBuildFiles` from src/utils.ts lines 49-61.  `readdir(buildPath)` is
modelled by the explicit `files` listing parameter; `find` returns the first
entry ending in the extension and containing the version text; if either is
missing the function throws. -/
def getBuildFiles (buildPath : Str) (files : List Str) (version : Str) : Except String BuildFiles :=
  let zipFileName := files.find? (fun x => strEndsWith (str ".zip") x && strIncludes version x)
  let sigFileName := files.find? (fun x => strEndsWith (str ".sig") x && strIncludes version x)
  match zipFileName, sigFileName with
  | some z, some s =>
    Except.ok { zipFile := { name := z, path := joinPath buildPath z }
                sigFile := { name := s, path := joinPath buildPath s } }
  | _, _ => Except.error ((str ".zip or .sig file not found in (" ++ buildPath ++ str ")").asString)

/-- A strict `major.minor.patch` numeric triple, as accepted by semver. -/
def parseTriple (s : Str) : Option (Int × Int × Int) :=
  match splitOnChar '.' s with
  | [a, b, c] =>
    if a ≠ [] && b ≠ [] && c ≠ [] && a.all isDigitCh && b.all isDigitCh && c.all isDigitCh then
      some ((digitsVal a : Int), (digitsVal b : Int), (digitsVal c : Int))
    else none
  | _ => none

/-- `Bun.semver.order`, modelled on canonical `major.minor.patch` inputs as the
lexicographic comparison of the numeric triples; inputs that are not such
triples compare equal. -/
def semverOrder (a b : Str) : Ordering :=
  match parseTriple a, parseTriple b with
  | some (a1, a2, a3), some (b1, b2, b3) =>
    (compare a1 b1).then ((compare a2 b2).then (compare a3 b3))
  | _, _ => Ordering.eq

/-- The comparator of src/utils.ts line 21: semver order of the part before `_`. -/
def folderCmp (v1 v2 : Str) : Ordering :=
  semverOrder ((splitOnChar '_' v1).headD []) ((splitOnChar '_' v2).headD [])

/-- Stable insertion used by `sortByCmp` (the element being inserted is
original-order-earlier, so it goes before entries comparing equal). -/
def insertCmp (cmp : Str → Str → Ordering) (x : Str) : List Str → List Str
  | [] => [x]
  | y :: ys => if cmp x y = Ordering.gt then y :: insertCmp cmp x ys else x :: y :: ys

/-- `Array.prototype.sort` with a comparator, modelled as a stable sort. -/
def sortByCmp (cmp : Str → Str → Ordering) : List Str → List Str
  | [] => []
  | x :: xs => insertCmp cmp x (sortByCmp cmp xs)

/-- `Array.prototype.map` when the mapped function can throw: applied in order,
the first exception propagates. -/
def mapExcept (f : α → Except ε β) : List α → Except ε (List β)
  | [] => Except.ok []
  | a :: as =>
    match f a, mapExcept f as with
    | Except.error e, _ => Except.error e
    | Except.ok _, Except.error e => Except.error e
    | Except.ok b, Except.ok bs => Except.ok (b :: bs)

/-- `getVersions` from src/utils.ts lines 20-23 (the current variant): the
listing of the single builds root (modelled by the `folders` parameter) is
sorted ascending by semver order of the part before `_`, reversed, and each
folder name mapped to its `BuildType` and parsed `Version`.  It takes no
lineage parameter; both lineages' folders appear in its result. -/
def getVersions (folders : List Str) : Except String (List AppVersion) :=
  let sorted := (sortByCmp folderCmp folders).reverse
  mapExcept (fun x => (stringToVersion x).map (fun v => { type := getFolderBuildType x, version := v })) sorted

/-- Default `latest` of src/utils.ts line 29: `orderedVersions?.[0]?.version ?? «0.0.0»`. -/
def latestOf (orderedVersions : List AppVersion) : Version :=
  ((orderedVersions.head?).map AppVersion.version).getD
    { major := some 0, minor := some 0, patch := some (some 0) }

/-- `latestVersion.patch! + 1` of src/utils.ts line 38: an absent patch is
`undefined`, and `undefined + 1` as well as `NaN + 1` are `NaN` (`none`). -/
def patchPlusOne (p : Option (Option Int)) : Option Int :=
  match p with
  | some (some k) => some (k + 1)
  | _ => none

/-- `getPatchedVersion` from src/utils.ts lines 28-44: parses the requested
fragment, rejects a present patch segment, rejects
`major < latest.major || minor < latest.minor` (note: the two components are
tested independently), then resolves the patch to `latest.patch + 1` when both
major and minor match the latest and to `0` otherwise, returning the rendered
string. -/
def getPatchedVersion (version : Str) (orderedVersions : List AppVersion) : Except String Str :=
  let latestVersion := latestOf orderedVersions
  match stringToVersion version with
  | Except.error e => Except.error e
  | Except.ok versionToPatch =>
    if versionToPatch.patch ≠ none then
      Except.error "Input version cannot have a patch number"
    else if ltN versionToPatch.major latestVersion.major || ltN versionToPatch.minor latestVersion.minor then
      Except.error "Input version cannot be less than latest available version"
    else if eqN versionToPatch.major latestVersion.major && eqN versionToPatch.minor latestVersion.minor then
      Except.ok (versionToString { versionToPatch with patch := some (patchPlusOne latestVersion.patch) })
    else
      Except.ok (versionToString { versionToPatch with patch := some (some 0) })

/-- `String.prototype.trim`. -/
def trimJS (l : Str) : Str := ((l.dropWhile jsWs).reverse.dropWhile jsWs).reverse

/-- The per-line step of `writeCargoTomlVersion` (src/utils.ts lines 109-115). -/
def cargoLineStep (version l : Str) : Str :=
  if List.isPrefixOf (str "version = ") l then str "version = \"" ++ version ++ str "\"" else l

/-- The per-line step of `writePackageJsonVersion` (src/utils.ts lines 130-136):
the trimmed line must start with `"version"`; the replacement always carries a
trailing comma. -/
def pkgLineStep (version l : Str) : Str :=
  if List.isPrefixOf (str "\"version\"") (trimJS l) then str "\"version\": \"" ++ version ++ str "\"," else l

/-- `writeCargoTomlVersion` from src/utils.ts lines 103-119, as the pure text
transformation applied between the whole-file read and the whole-file write. -/
def writeCargoTomlVersion (text version : Str) : Str :=
  joinWith '\n' ((splitOnChar '\n' text).map (cargoLineStep version))

/-- `writePackageJsonVersion` from src/utils.ts lines 124-140, as the pure text
transformation applied between the whole-file read and the whole-file write. -/
def writePackageJsonVersion (text version : Str) : Str :=
  joinWith '\n' ((splitOnChar '\n' text).map (pkgLineStep version))

/-- Association-list lookup for the modelled filesystem contents. -/
def lookupF (p : Str) : List (Str × Str) → Option Str
  | [] => none
  | (q, c) :: fs => if q = p then some c else lookupF p fs

/-- Writing a file: the new binding shadows any earlier one. -/
def fsWrite (p c : Str) (fs : List (Str × Str)) : List (Str × Str) := (p, c) :: fs

/-- Read a file's text, empty when absent. -/
def readFileD (fs : List (Str × Str)) (p : Str) : Str := (lookupF p fs).getD []

/-- The environment-sourced paths used by `buildVersion`
(src/unnamed/part_002, most recent variant): the single builds root,
the two manifest files, and the tauri output directory for the chosen lineage. -/
structure BuildCfg where
  buildsPath : Str
  cargoTomlPath : Str
  packageJsonPath : Str
deriving DecidableEq

/-- The local state `buildVersion` touches: the folder names under the builds
root (`readdir(BUILDS_PATH)`) and file contents addressed by path. -/
structure BState where
  dirs : List Str
  files : List (Str × Str)
deriving DecidableEq

/-- `buildVersion` from src/unnamed/part_002 lines 335-383 (the most recent
variant), as a state-passing function returning the final local state and the
error, if any.  Steps in source order: `getVersions()` over the builds root
listing (no lineage scoping), `getPatchedVersion`, the two manifest rewrites,
the external tauri build (its exit status is not inspected by the source and
the external output directory is modelled by the `tauriDir` listing of
name/content pairs), `mkdir` of the new version folder (which fails when the
folder already exists), `getBuildFiles` on the tauri output, and the two
artifact copies into the new folder. -/
def buildVersion (cfg : BuildCfg) (tauriPath : Str) (tauriDir : List (Str × Str))
    (version : Str) (type : BuildType) (st : BState) : BState × Option String :=
  match getVersions st.dirs with
  | Except.error e => (st, some e)
  | Except.ok versions =>
    match getPatchedVersion version versions with
    | Except.error e => (st, some e)
    | Except.ok newVersion =>
      let newVersionFolder := newVersion ++ getVersionSuffix type
      let newVersionPath := joinPath cfg.buildsPath newVersionFolder
      let cargoText := writeCargoTomlVersion (readFileD st.files cfg.cargoTomlPath) newVersion
      let st₁ : BState := { st with files := fsWrite cfg.cargoTomlPath cargoText st.files }
      let pkgText := writePackageJsonVersion (readFileD st₁.files cfg.packageJsonPath) newVersion
      let st₂ : BState := { st₁ with files := fsWrite cfg.packageJsonPath pkgText st₁.files }
      if newVersionFolder ∈ st₂.dirs then
        (st₂, some ((str "EEXIST: file already exists, mkdir " ++ newVersionPath).asString))
      else
        let st₃ : BState := { st₂ with dirs := newVersionFolder :: st₂.dirs }
        match getBuildFiles tauriPath (tauriDir.map Prod.fst) newVersion with
        | Except.error e => (st₃, some e)
        | Except.ok files =>
          let zipContent := readFileD tauriDir files.zipFile.name
          let st₄ : BState := { st₃ with files := fsWrite (joinPath newVersionPath files.zipFile.name) zipContent st₃.files }
          let sigContent := readFileD tauriDir files.sigFile.name
          let st₅ : BState := { st₄ with files := fsWrite (joinPath newVersionPath files.sigFile.name) sigContent st₄.files }
          (st₅, none)

/-- The list of existing versions which `buildVersion` (src/unnamed/part_002
line 337) hands to `getPatchedVersion`: `getVersions()` is called without any
lineage argument, and the requested lineage `type` does not enter the listing. -/
def buildVersionPatcherInput (folders : List Str) (_type : BuildType) : Except String (List AppVersion) :=
  getVersions folders

theorem isDigitCh_toNat {c : Char} (h : isDigitCh c = true) : 48 ≤ c.toNat ∧ c.toNat ≤ 57 := by
  simp [isDigitCh] at h
  exact h

theorem jsWs_toNat {c : Char} (h : jsWs c = true) : c.toNat ≤ 32 := by
  simp [jsWs] at h
  rcases h with ((((h | h) | h) | h) | h) | h <;> subst h <;> decide

theorem isDigitCh_not_ws {c : Char} (h : isDigitCh c = true) : jsWs c = false := by
  cases hb : jsWs c
  · rfl
  · exact absurd (isDigitCh_toNat h).1 (by have := jsWs_toNat hb; omega)

theorem isDigitCh_ne {c : Char} (h : isDigitCh c = true) {d : Char} (hd : d.toNat < 48 ∨ 57 < d.toNat) :
    c ≠ d := by
  intro he
  subst he
  have := isDigitCh_toNat h
  omega

theorem digitCh_val {n : Nat} (h : n < 10) : (digitCh n).toNat = 48 + n := by
  interval_cases n <;> decide

theorem digitVal_digitCh {n : Nat} (h : n < 10) : digitVal (digitCh n) = n := by
  interval_cases n <;> decide

theorem isDigitCh_digitCh {n : Nat} (h : n < 10) : isDigitCh (digitCh n) = true := by
  interval_cases n <;> decide

theorem renderNatAux_spec {fuel n : Nat} (h : n < fuel) :
    renderNatAux fuel n ≠ [] ∧ (∀ c ∈ renderNatAux fuel n, isDigitCh c = true) ∧
      digitsVal (renderNatAux fuel n) = n := by
  induction fuel generalizing n with
  | zero => omega
  | succ fuel ih =>
    by_cases hn : n < 10
    · refine ⟨by simp [renderNatAux, hn], ?_, ?_⟩
      · intro c hc
        simp [renderNatAux, hn] at hc
        subst hc
        exact isDigitCh_digitCh hn
      · simp [renderNatAux, hn, digitsVal, digitVal_digitCh hn]
    · have hdiv : n / 10 < n := Nat.div_lt_self (by omega) (by omega)
      have hfuel : n / 10 < fuel := by omega
      obtain ⟨ihne, ihdig, ihval⟩ := ih hfuel
      refine ⟨?_, ?_, ?_⟩
      · simp [renderNatAux, hn]
      · intro c hc
        simp [renderNatAux, hn] at hc
        rcases hc with hc | hc
        · exact ihdig c hc
        · subst hc
          exact isDigitCh_digitCh (Nat.mod_lt _ (by omega))
      · have hmod : n % 10 < 10 := Nat.mod_lt _ (by omega)
        simp only [renderNatAux, hn, if_false]
        simp only [digitsVal] at ihval ⊢
        rw [List.foldl_append]
        simp [ihval, digitVal_digitCh hmod]
        omega

theorem renderNat_ne_nil (n : Nat) : renderNat n ≠ [] :=
  (renderNatAux_spec (Nat.lt_succ_self n)).1

theorem renderNat_digits (n : Nat) : ∀ c ∈ renderNat n, isDigitCh c = true :=
  (renderNatAux_spec (Nat.lt_succ_self n)).2.1

theorem digitsVal_renderNat (n : Nat) : digitsVal (renderNat n) = n :=
  (renderNatAux_spec (Nat.lt_succ_self n)).2.2

theorem splitOnChar_ne_nil (sep : Char) (s : Str) : splitOnChar sep s ≠ [] := by
  cases s with
  | nil => simp [splitOnChar]
  | cons c cs =>
    by_cases h : c = sep
    · simp [splitOnChar, h]
    · simp only [splitOnChar, h, if_false]
      cases splitOnChar sep cs <;> simp

theorem splitOnChar_not_mem {sep : Char} {s : Str} (h : sep ∉ s) : splitOnChar sep s = [s] := by
  induction s with
  | nil => rfl
  | cons c cs ih =>
    have hc : ¬ c = sep := fun he => h (he ▸ List.mem_cons_self c cs)
    have hcs : sep ∉ cs := fun hm => h (List.mem_cons_of_mem c hm)
    simp only [splitOnChar, hc, if_false, ih hcs]

theorem splitOnChar_sep_append {sep : Char} {A : Str} (h : sep ∉ A) (rest : Str) :
    splitOnChar sep (A ++ sep :: rest) = A :: splitOnChar sep rest := by
  induction A with
  | nil => simp [splitOnChar]
  | cons a A ih =>
    have ha : ¬ a = sep := fun he => h (he ▸ List.mem_cons_self a A)
    have hA : sep ∉ A := fun hm => h (List.mem_cons_of_mem a hm)
    simp only [List.cons_append, splitOnChar, ha, if_false]
    rw [show A.append (sep :: rest) = A ++ sep :: rest from rfl, ih hA]

theorem mem_splitOnChar_not_mem (sep : Char) (s : Str) : ∀ l ∈ splitOnChar sep s, sep ∉ l := by
  induction s with
  | nil =>
    intro l hl
    simp [splitOnChar] at hl
    simp [hl]
  | cons c cs ih =>
    intro l hl
    by_cases h : c = sep
    · simp only [splitOnChar, h, if_true] at hl
      rcases List.mem_cons.mp hl with hl | hl
      · simp [hl]
      · exact ih l hl
    · simp only [splitOnChar, h, if_false] at hl
      cases hsp : splitOnChar sep cs with
      | nil => exact absurd hsp (splitOnChar_ne_nil sep cs)
      | cons l₀ ls =>
        rw [hsp] at hl
        rcases List.mem_cons.mp hl with hl | hl
        · subst hl
          intro hm
          rcases List.mem_cons.mp hm with hm | hm
          · exact h hm.symm
          · exact ih l₀ (hsp ▸ List.mem_cons_self l₀ ls) hm
        · exact ih l (hsp ▸ List.mem_cons_of_mem l₀ hl)

theorem joinWith_splitOnChar (sep : Char) (s : Str) : joinWith sep (splitOnChar sep s) = s := by
  induction s with
  | nil => rfl
  | cons c cs ih =>
    by_cases h : c = sep
    · subst h
      simp only [splitOnChar, if_true]
      cases hsp : splitOnChar c cs with
      | nil => exact absurd hsp (splitOnChar_ne_nil c cs)
      | cons l ls =>
        rw [hsp] at ih
        simp only [joinWith, List.nil_append, ih]
    · simp only [splitOnChar, h, if_false]
      cases hsp : splitOnChar sep cs with
      | nil => exact absurd hsp (splitOnChar_ne_nil sep cs)
      | cons l ls =>
        rw [hsp] at ih
        cases ls with
        | nil => simpa [joinWith] using congrArg (c :: ·) ih
        | cons l₂ ls₂ => simpa [joinWith] using congrArg (c :: ·) ih

theorem splitOnChar_joinWith {sep : Char} {ls : List Str} (hne : ls ≠ [])
    (h : ∀ l ∈ ls, sep ∉ l) : splitOnChar sep (joinWith sep ls) = ls := by
  induction ls with
  | nil => exact absurd rfl hne
  | cons l ls ih =>
    cases ls with
    | nil => exact splitOnChar_not_mem (h l (List.mem_cons_self l []))
    | cons l₂ ls₂ =>
      have h1 : sep ∉ l := h l (List.mem_cons_self _ _)
      have h2 : ∀ x ∈ l₂ :: ls₂, sep ∉ x := fun x hx => h x (List.mem_cons_of_mem l hx)
      simp only [joinWith]
      rw [splitOnChar_sep_append h1, ih (by simp) h2]

theorem takeWhile_all {p : Char → Bool} {l : Str} (h : ∀ a ∈ l, p a = true) :
    l.takeWhile p = l := by
  induction l with
  | nil => rfl
  | cons c cs ih =>
    rw [List.takeWhile_cons, h c (List.mem_cons_self c cs), ih (fun a ha => h a (List.mem_cons_of_mem c ha))]
    simp

theorem parseIntTS_digits {ds : Str} (hne : ds ≠ []) (hd : ∀ c ∈ ds, isDigitCh c = true) :
    parseIntTS ds = some ((digitsVal ds : Nat) : Int) := by
  cases ds with
  | nil => exact absurd rfl hne
  | cons c r =>
    have hc : isDigitCh c = true := hd c (List.mem_cons_self c r)
    have hdrop : (c :: r).dropWhile jsWs = c :: r := by
      rw [List.dropWhile_cons, isDigitCh_not_ws hc]
      simp
    have hm : c ≠ '-' := isDigitCh_ne hc (by decide)
    have hp : c ≠ '+' := isDigitCh_ne hc (by decide)
    have htake : (c :: r).takeWhile isDigitCh = c :: r := takeWhile_all hd
    simp only [parseIntTS, hdrop, hm, hp, if_false, digitsPrefixVal, htake]
    simp

theorem parseIntTS_renderNat (n : Nat) : parseIntTS (renderNat n) = some ((n : Nat) : Int) := by
  rw [parseIntTS_digits (renderNat_ne_nil n) (renderNat_digits n), digitsVal_renderNat]

theorem renderNat_not_mem_dot (n : Nat) : '.' ∉ renderNat n := fun hm =>
  isDigitCh_ne (renderNat_digits n _ hm) (by decide) rfl

theorem renderNat_not_mem_underscore (n : Nat) : '_' ∉ renderNat n := fun hm =>
  isDigitCh_ne (renderNat_digits n _ hm) (by decide) rfl

theorem renderNum_natCast (a : Nat) : renderNum (some ((a : Nat) : Int)) = renderNat a := by
  simp [renderNum, renderInt]

/-- C7: for every fully-resolved `Version` with non-negative integer components,
`parse(format(v)) == v`: `stringToVersion` applied to `versionToString` of the
version returns exactly the same version. -/
theorem C7_parse_format_roundtrip (a b c : Nat) :
    stringToVersion (versionToString
      { major := some ((a : Nat) : Int), minor := some ((b : Nat) : Int), patch := some (some ((c : Nat) : Int)) }) =
    Except.ok
      { major := some ((a : Nat) : Int), minor := some ((b : Nat) : Int), patch := some (some ((c : Nat) : Int)) } := by
  have hS : versionToString
      { major := some ((a : Nat) : Int), minor := some ((b : Nat) : Int), patch := some (some ((c : Nat) : Int)) } =
      renderNat a ++ '.' :: (renderNat b ++ '.' :: renderNat c) := by
    simp [versionToString, renderNum_natCast, str]
  have hu : '_' ∉ renderNat a ++ '.' :: (renderNat b ++ '.' :: renderNat c) := by
    intro hm
    rcases List.mem_append.mp hm with hm | hm
    · exact renderNat_not_mem_underscore a hm
    · rcases List.mem_cons.mp hm with hm | hm
      · exact absurd hm.symm (by decide)
      · rcases List.mem_append.mp hm with hm | hm
        · exact renderNat_not_mem_underscore b hm
        · rcases List.mem_cons.mp hm with hm | hm
          · exact absurd hm.symm (by decide)
          · exact renderNat_not_mem_underscore c hm
  have hsplit : splitOnChar '.' (renderNat a ++ '.' :: (renderNat b ++ '.' :: renderNat c)) =
      [renderNat a, renderNat b, renderNat c] := by
    rw [splitOnChar_sep_append (renderNat_not_mem_dot a),
        splitOnChar_sep_append (renderNat_not_mem_dot b),
        splitOnChar_not_mem (renderNat_not_mem_dot c)]
  have hcne : (renderNat c).isEmpty = false := by
    cases hc : renderNat c with
    | nil => exact absurd hc (renderNat_ne_nil c)
    | cons x xs => rfl
  rw [hS]
  simp only [stringToVersion, splitOnChar_not_mem hu, List.headD_cons, hsplit]
  simp only [List.length_cons, List.length_nil, List.get?, List.getD, List.headD_cons]
  norm_num
  simp only [hcne, if_false, parseIntTS_renderNat a, parseIntTS_renderNat b, parseIntTS_renderNat c]
  exact ⟨trivial, trivial, renderNat_ne_nil c, trivial⟩

theorem splitOnChar_length_lt_two (sep : Char) (s : Str) :
    ((splitOnChar sep s).length < 2) ↔ sep ∉ s := by
  induction s with
  | nil => simp [splitOnChar]
  | cons c cs ih =>
    by_cases h : c = sep
    · subst h
      simp only [splitOnChar, if_true]
      have := splitOnChar_ne_nil c cs
      constructor
      · intro hl
        cases hsp : splitOnChar c cs with
        | nil => exact absurd hsp this
        | cons l ls => rw [hsp] at hl; simp at hl; omega
      · intro hm
        exact absurd (List.mem_cons_self c cs) hm
    · simp only [splitOnChar, h, if_false]
      cases hsp : splitOnChar sep cs with
      | nil => exact absurd hsp (splitOnChar_ne_nil sep cs)
      | cons l ls =>
        rw [hsp] at ih
        simp only [List.length_cons] at ih ⊢
        rw [List.mem_cons]
        constructor
        · intro hl hm
          rcases hm with hm | hm
          · exact h hm.symm
          · exact (ih.mp hl) hm
        · intro hm
          exact ih.mpr (fun hmem => hm (Or.inr hmem))

/-- C6 (amended): `stringToVersion` fails with the invalid-format error exactly
when the part of the input before the first `_` contains no `.` (fewer than two
dot-separated segments); non-numeric segments are NOT rejected — they parse to
`NaN` components without an error. -/
theorem C6_parse_error_iff (s : Str) :
    stringToVersion s = Except.error "Version string was invalid" ↔
      '.' ∉ (splitOnChar '_' s).headD [] := by
  rw [← splitOnChar_length_lt_two '.' ((splitOnChar '_' s).headD [])]
  by_cases h : (splitOnChar '.' ((splitOnChar '_' s).headD [])).length < 2
  · simp [stringToVersion, h]
  · simp [stringToVersion, h]

/-- C6 (counterexample): the input "a.b" has non-numeric major and minor
segments, yet `stringToVersion` returns a `Version` (with `NaN` components)
instead of failing. -/
theorem C6_counterexample :
    stringToVersion (str "a.b") = Except.ok { major := none, minor := none, patch := none } := by
  rfl

/-- C4 (counterexample): formatting a version whose patch is unresolved does
not fail — it yields the string "1.2.undefined". -/
theorem C4_counterexample :
    versionToString { major := some 1, minor := some 2, patch := none } = str "1.2.undefined" := by
  rfl

/-- C4 (amended): for every `Version` whose patch component is absent,
`versionToString` still succeeds and renders the major and minor components
followed by the literal text "undefined" in the patch position. -/
theorem C4_format_unresolved (v : Version) (h : v.patch = none) :
    versionToString v = renderNum v.major ++ str "." ++ renderNum v.minor ++ str "." ++ str "undefined" := by
  simp [versionToString, h]

/-- C4 (witness for the amended claim at a concrete unresolved version). -/
theorem C4_format_unresolved_witness :
    versionToString { major := some 1, minor := some 2, patch := none } =
      renderNum (some 1) ++ str "." ++ renderNum (some 2) ++ str "." ++ str "undefined" :=
  C4_format_unresolved { major := some 1, minor := some 2, patch := none } rfl

/-- C5: whenever the requested fragment parses to a version whose patch
segment is present (even a `NaN` one), `getPatchedVersion` fails with the
patch-not-allowed error, for every history. -/
theorem C5_patch_not_allowed (s : Str) (f : Version) (H : List AppVersion)
    (hs : stringToVersion s = Except.ok f) (hp : f.patch ≠ none) :
    getPatchedVersion s H = Except.error "Input version cannot have a patch number" := by
  simp [getPatchedVersion, hs, hp]

/-- C5 (witness): the fragment "1.4.0" carries a patch segment and is rejected
against the empty history. -/
theorem C5_patch_not_allowed_witness :
    getPatchedVersion (str "1.4.0") [] = Except.error "Input version cannot have a patch number" :=
  C5_patch_not_allowed (str "1.4.0") { major := some 1, minor := some 4, patch := some (some 0) } []
    (by rfl) (by simp)

/-- C1 (the failing input): the patch-free fragment "2.0" has a strictly
higher major than the latest version 1.5.0, so per the spec it must not be
rejected; the code still fails with the version-too-low error because it
compares the minor components independently of the majors
(src/utils.ts line 33). -/
theorem C1_higher_major_rejected :
    getPatchedVersion (str "2.0")
      [{ type := BuildType.RELEASE, version := { major := some 1, minor := some 5, patch := some (some 0) } }] =
      Except.error "Input version cannot be less than latest available version" := by
  rfl

/-- Descending-order comparison on fully numeric versions (patch resolved, no
`NaN`): `verLeB v w` holds when `v ≤ w` in the lexicographic
(major, minor, patch) order; it is false when either side is not fully
numeric.  Used to state that a lineage history is descending. -/
def verLeB (v w : Version) : Bool :=
  match v.major, v.minor, v.patch, w.major, w.minor, w.patch with
  | some a, some b, some (some c), some d, some e, some (some g) =>
    decide (a < d) || (decide (a = d) && (decide (b < e) || (decide (b = e) && decide (c ≤ g))))
  | _, _, _, _, _, _ => false

/-- C3: for a patch-free numeric fragment accepted by `getPatchedVersion`
against a descending history whose latest entry is fully numeric, the output
is the fragment with patch `latest.patch + 1` when major and minor both equal
the latest's and patch `0` otherwise, and the resolved version does not occur
in the history. -/
theorem C3_next_version (s : Str) (H : List AppVersion) (out : Str)
    (fa fb la lb lp : Int)
    (hs : stringToVersion s = Except.ok { major := some fa, minor := some fb, patch := none })
    (hlat : latestOf H = { major := some la, minor := some lb, patch := some (some lp) })
    (hdesc : H.all (fun av => verLeB av.version (latestOf H)) = true)
    (hok : getPatchedVersion s H = Except.ok out) :
    out = versionToString
      { major := some fa
        minor := some fb
        patch := some (some (if fa = la ∧ fb = lb then lp + 1 else 0)) } ∧
    ∀ av ∈ H, av.version ≠
      { major := some fa
        minor := some fb
        patch := some (some (if fa = la ∧ fb = lb then lp + 1 else 0)) } := by
  simp only [getPatchedVersion, hs, hlat, patchPlusOne] at hok
  by_cases h1 : fa < la
  · simp [ltN, h1] at hok
  by_cases h2 : fb < lb
  · simp [ltN, h2] at hok
  by_cases h3 : fa = la ∧ fb = lb
  · rcases h3 with ⟨h3a, h3b⟩
    subst h3a
    subst h3b
    simp only [ltN, eqN] at hok
    simp [h1, h2] at hok
    rw [if_pos ⟨rfl, rfl⟩]
    refine ⟨hok.symm, ?_⟩
    intro av hav heq
    have hle := List.all_eq_true.mp hdesc av hav
    rw [hlat, heq] at hle
    simp only [verLeB, Bool.or_eq_true, Bool.and_eq_true, decide_eq_true_eq] at hle
    omega
  · have h3c : (decide (fa = la) && decide (fb = lb)) = false := by
      rcases Decidable.not_and_iff_or_not.mp h3 with h | h <;> simp [h]
    simp only [ltN, eqN, h3c] at hok
    simp [h1, h2] at hok
    rw [if_neg h3]
    refine ⟨hok.symm, ?_⟩
    intro av hav heq
    have hle := List.all_eq_true.mp hdesc av hav
    rw [hlat, heq] at hle
    simp only [verLeB, Bool.or_eq_true, Bool.and_eq_true, decide_eq_true_eq] at hle
    rcases hle with hle | ⟨hea, hle | ⟨heb, _⟩⟩
    · exact h1 hle
    · exact h2 hle
    · exact h3 ⟨hea, heb⟩

/-- C3 (witness): fragment "1.4" against the descending history [1.4.2]
resolves to "1.4.3", which is not in the history. -/
theorem C3_next_version_witness :
    str "1.4.3" = versionToString
      { major := some 1
        minor := some 4
        patch := some (some (if (1 : Int) = 1 ∧ (4 : Int) = 4 then 2 + 1 else 0)) } ∧
    ∀ av ∈ [{ type := BuildType.RELEASE
              version := { major := some 1, minor := some 4, patch := some (some 2) } }],
      AppVersion.version av ≠
      { major := some 1
        minor := some 4
        patch := some (some (if (1 : Int) = 1 ∧ (4 : Int) = 4 then 2 + 1 else 0)) } :=
  C3_next_version (str "1.4")
    [{ type := BuildType.RELEASE,
       version := { major := some 1, minor := some 4, patch := some (some 2) } }]
    (str "1.4.3") 1 4 1 4 2 (by rfl) (by rfl) (by decide) (by rfl)

theorem find?_eq_some_of_countP_one {p : Str → Bool} {l : List Str} {z : Str}
    (h1 : l.countP p = 1) (hz : z ∈ l) (hp : p z = true) : l.find? p = some z := by
  induction l with
  | nil => exact absurd hz (List.not_mem_nil z)
  | cons x xs ih =>
    by_cases hx : p x = true
    · rw [List.find?_cons_of_pos _ hx]
      rcases List.mem_cons.mp hz with hzx | hzxs
      · rw [hzx]
      · exfalso
        rw [List.countP_cons_of_pos _ _ hx] at h1
        have h0 : xs.countP p = 0 := by omega
        have hnp := List.countP_eq_zero.mp h0 z hzxs
        simp only [Bool.not_eq_true] at hnp
        exact absurd hp (by simp [hnp])
    · rw [List.find?_cons_of_neg _ hx]
      rw [List.countP_cons_of_neg _ _ hx] at h1
      rcases List.mem_cons.mp hz with hzx | hzxs
      · exact absurd (hzx ▸ hp) hx
      · exact ih h1 hzxs

/-- C8: `getBuildFiles` fails with the artifact-not-found error whenever the
listing has no entry matching the archive predicate (ends with ".zip" and
contains the version text) or none matching the signature predicate (ends with
".sig" and contains the version text); and when exactly one entry matches each
predicate, it succeeds returning exactly that archive/signature pair. -/
theorem C8_locate (dir : Str) (files : List Str) (version : Str) :
    ((files.countP (fun x => strEndsWith (str ".zip") x && strIncludes version x) = 0 ∨
      files.countP (fun x => strEndsWith (str ".sig") x && strIncludes version x) = 0) →
      getBuildFiles dir files version =
        Except.error ((str ".zip or .sig file not found in (" ++ dir ++ str ")").asString)) ∧
    (∀ z s, files.countP (fun x => strEndsWith (str ".zip") x && strIncludes version x) = 1 →
      files.countP (fun x => strEndsWith (str ".sig") x && strIncludes version x) = 1 →
      z ∈ files → (strEndsWith (str ".zip") z && strIncludes version z) = true →
      s ∈ files → (strEndsWith (str ".sig") s && strIncludes version s) = true →
      getBuildFiles dir files version =
        Except.ok { zipFile := { name := z, path := joinPath dir z }
                    sigFile := { name := s, path := joinPath dir s } }) := by
  constructor
  · intro h
    rcases h with h | h
    · have hz : files.find? (fun x => strEndsWith (str ".zip") x && strIncludes version x) = none := by
        rw [List.find?_eq_none]
        intro x hx
        simpa using List.countP_eq_zero.mp h x hx
      simp only [getBuildFiles, hz]
    · have hs : files.find? (fun x => strEndsWith (str ".sig") x && strIncludes version x) = none := by
        rw [List.find?_eq_none]
        intro x hx
        simpa using List.countP_eq_zero.mp h x hx
      simp only [getBuildFiles, hs]
      cases files.find? (fun x => strEndsWith (str ".zip") x && strIncludes version x) <;> rfl
  · intro z s h1 h2 hzmem hzp hsmem hsp
    have hfz := find?_eq_some_of_countP_one h1 hzmem hzp
    have hfs := find?_eq_some_of_countP_one h2 hsmem hsp
    simp only [getBuildFiles, hfz, hfs]

/-- C8 (witness): a listing with exactly one matching archive and exactly one
matching signature yields exactly that pair. -/
theorem C8_locate_witness :
    getBuildFiles (str "t") [str "Huginn_1.2.3_x64.zip", str "Huginn_1.2.3_x64.zip.sig", str "other.txt"]
        (str "1.2.3") =
      Except.ok { zipFile := { name := str "Huginn_1.2.3_x64.zip"
                               path := joinPath (str "t") (str "Huginn_1.2.3_x64.zip") }
                  sigFile := { name := str "Huginn_1.2.3_x64.zip.sig"
                               path := joinPath (str "t") (str "Huginn_1.2.3_x64.zip.sig") } } :=
  (C8_locate (str "t") [str "Huginn_1.2.3_x64.zip", str "Huginn_1.2.3_x64.zip.sig", str "other.txt"]
      (str "1.2.3")).2
    (str "Huginn_1.2.3_x64.zip") (str "Huginn_1.2.3_x64.zip.sig")
    (by decide) (by decide) (by decide) (by decide) (by decide) (by decide)

theorem map_eq_self {f : Str → Str} {l : List Str} (h : ∀ a ∈ l, f a = a) : l.map f = l := by
  induction l with
  | nil => rfl
  | cons x xs ih =>
    rw [List.map_cons, h x (List.mem_cons_self x xs), ih (fun a ha => h a (List.mem_cons_of_mem x ha))]

/-- C10: line-exact behaviour of the two manifest rewrites.  For a version
text without newlines, the rewritten Cargo.toml splits into exactly the
original lines with each line beginning with `version = ` replaced by
`version = "v"` and every other line unchanged, and likewise for package.json
with lines whose trimmed form begins with `"version"` replaced by
`"version": "v",` (trailing comma included); and when no line matches, each
rewrite returns the original text unchanged (a silent no-op). -/
theorem C10_manifest_rewrite (text v : Str) :
    ('\n' ∉ v →
      splitOnChar '\n' (writeCargoTomlVersion text v) = (splitOnChar '\n' text).map (cargoLineStep v) ∧
      splitOnChar '\n' (writePackageJsonVersion text v) = (splitOnChar '\n' text).map (pkgLineStep v)) ∧
    ((∀ l ∈ splitOnChar '\n' text, List.isPrefixOf (str "version = ") l = false) →
      writeCargoTomlVersion text v = text) ∧
    ((∀ l ∈ splitOnChar '\n' text, List.isPrefixOf (str "\"version\"") (trimJS l) = false) →
      writePackageJsonVersion text v = text) := by
  refine ⟨?_, ?_, ?_⟩
  · intro hv
    constructor
    · apply splitOnChar_joinWith
      · exact fun habs => splitOnChar_ne_nil '\n' text (List.map_eq_nil_iff.mp habs)
      · intro l hl
        rcases List.mem_map.mp hl with ⟨l₀, hl₀, rfl⟩
        cases hm : List.isPrefixOf (str "version = ") l₀ with
        | true =>
          simp only [cargoLineStep, hm, if_true]
          intro hnl
          rcases List.mem_append.mp hnl with h | h
          · rcases List.mem_append.mp h with h | h
            · exact absurd h (by decide)
            · exact hv h
          · exact absurd h (by decide)
        | false =>
          simp only [cargoLineStep, hm, Bool.false_eq_true, if_false]
          exact mem_splitOnChar_not_mem '\n' text l₀ hl₀
    · apply splitOnChar_joinWith
      · exact fun habs => splitOnChar_ne_nil '\n' text (List.map_eq_nil_iff.mp habs)
      · intro l hl
        rcases List.mem_map.mp hl with ⟨l₀, hl₀, rfl⟩
        cases hm : List.isPrefixOf (str "\"version\"") (trimJS l₀) with
        | true =>
          simp only [pkgLineStep, hm, if_true]
          intro hnl
          rcases List.mem_append.mp hnl with h | h
          · rcases List.mem_append.mp h with h | h
            · exact absurd h (by decide)
            · exact hv h
          · exact absurd h (by decide)
        | false =>
          simp only [pkgLineStep, hm, Bool.false_eq_true, if_false]
          exact mem_splitOnChar_not_mem '\n' text l₀ hl₀
  · intro h
    unfold writeCargoTomlVersion
    rw [map_eq_self (fun l hl => by simp [cargoLineStep, h l hl]), joinWith_splitOnChar]
  · intro h
    unfold writePackageJsonVersion
    rw [map_eq_self (fun l hl => by simp [pkgLineStep, h l hl]), joinWith_splitOnChar]

/-- C10 (witness): a concrete two-line Cargo.toml is rewritten line-exactly,
and a text without the package.json version key is returned unchanged. -/
theorem C10_manifest_rewrite_witness :
    splitOnChar '\n' (writeCargoTomlVersion (str "name = \"x\"\nversion = \"0.1.0\"") (str "1.2.3")) =
      (splitOnChar '\n' (str "name = \"x\"\nversion = \"0.1.0\"")).map (cargoLineStep (str "1.2.3")) ∧
    writePackageJsonVersion (str "name = \"x\"\nversion = \"0.1.0\"") (str "1.2.3") =
      str "name = \"x\"\nversion = \"0.1.0\"" :=
  ⟨((C10_manifest_rewrite (str "name = \"x\"\nversion = \"0.1.0\"") (str "1.2.3")).1 (by decide)).1,
   (C10_manifest_rewrite (str "name = \"x\"\nversion = \"0.1.0\"") (str "1.2.3")).2.2 (by decide)⟩

theorem insertCmp_perm (cmp : Str → Str → Ordering) (x : Str) (l : List Str) :
    (insertCmp cmp x l).Perm (x :: l) := by
  induction l with
  | nil => exact List.Perm.refl _
  | cons y ys ih =>
    by_cases h : cmp x y = Ordering.gt
    · simp only [insertCmp, h, if_true]
      exact ((ih.cons y).trans (List.Perm.swap x y ys))
    · simp only [insertCmp, h, if_false]
      exact List.Perm.refl _

theorem sortByCmp_perm (cmp : Str → Str → Ordering) (l : List Str) :
    (sortByCmp cmp l).Perm l := by
  induction l with
  | nil => exact List.Perm.refl _
  | cons x xs ih => exact (insertCmp_perm cmp x (sortByCmp cmp xs)).trans (ih.cons x)

theorem mapExcept_mem {f : Str → Except String AppVersion} {l : List Str} {out : List AppVersion}
    (h : mapExcept f l = Except.ok out) {a : Str} (ha : a ∈ l) {b : AppVersion}
    (hb : f a = Except.ok b) : b ∈ out := by
  induction l generalizing out with
  | nil => exact absurd ha (List.not_mem_nil a)
  | cons x xs ih =>
    simp only [mapExcept] at h
    cases hfx : f x with
    | error e => rw [hfx] at h; exact Except.noConfusion h
    | ok bx =>
      rw [hfx] at h
      cases hrest : mapExcept f xs with
      | error e => rw [hrest] at h; exact Except.noConfusion h
      | ok bs =>
        rw [hrest] at h
        injection h with h
        subst h
        rcases List.mem_cons.mp ha with hax | haxs
        · subst hax
          rw [hfx] at hb
          injection hb with hb
          exact hb ▸ List.mem_cons_self bx bs
        · exact List.mem_cons_of_mem bx (ih hrest haxs)

/-- C2 (amended): the existing-versions list that `buildVersion` hands to the
version patcher is the unscoped merged listing of the single builds root —
it does not depend on the requested lineage at all, and every folder of either
lineage that parses contributes its entry (with its own folder-derived lineage)
to that list. -/
theorem C2_merged_patcher_input (folders : List Str) (type : BuildType) :
    buildVersionPatcherInput folders type = getVersions folders ∧
    (∀ out, buildVersionPatcherInput folders type = Except.ok out →
      ∀ d ∈ folders, ∀ v, stringToVersion d = Except.ok v →
        { type := getFolderBuildType d, version := v } ∈ out) := by
  refine ⟨rfl, ?_⟩
  intro out hout d hd v hv
  have hmem : d ∈ (sortByCmp folderCmp folders).reverse := by
    rw [List.mem_reverse]
    exact ((sortByCmp_perm folderCmp folders).mem_iff).mpr hd
  have hfd : (stringToVersion d).map
      (fun v => ({ type := getFolderBuildType d, version := v } : AppVersion)) =
      Except.ok { type := getFolderBuildType d, version := v } := by
    rw [hv]
    rfl
  exact mapExcept_mem hout hmem hfd

/-- C2 (counterexample): requesting a RELEASE build over a builds root that
contains a debug folder hands the patcher a list whose first entry is a DEBUG
version — the other lineage is not filtered out. -/
theorem C2_counterexample :
    buildVersionPatcherInput [str "1.2.0_debug", str "1.1.0_release"] BuildType.RELEASE =
      Except.ok
        [{ type := BuildType.DEBUG, version := { major := some 1, minor := some 2, patch := some (some 0) } },
         { type := BuildType.RELEASE, version := { major := some 1, minor := some 1, patch := some (some 0) } }] ∧
    ([({ type := BuildType.DEBUG, version := { major := some 1, minor := some 2, patch := some (some 0) } } : AppVersion),
      { type := BuildType.RELEASE, version := { major := some 1, minor := some 1, patch := some (some 0) } }].any
        (fun av => decide (av.type = BuildType.DEBUG))) = true := by
  constructor
  · rfl
  · rfl

/-- C2 (witness for the amended claim): on the same concrete builds root, the
debug folder's entry is in the patcher's input for a RELEASE build. -/
theorem C2_merged_patcher_input_witness :
    { type := BuildType.DEBUG, version := { major := some 1, minor := some 2, patch := some (some 0) } } ∈
      [({ type := BuildType.DEBUG, version := { major := some 1, minor := some 2, patch := some (some 0) } } : AppVersion),
       { type := BuildType.RELEASE, version := { major := some 1, minor := some 1, patch := some (some 0) } }] :=
  (C2_merged_patcher_input [str "1.2.0_debug", str "1.1.0_release"] BuildType.RELEASE).2
    [{ type := BuildType.DEBUG, version := { major := some 1, minor := some 2, patch := some (some 0) } },
     { type := BuildType.RELEASE, version := { major := some 1, minor := some 1, patch := some (some 0) } }]
    (by rfl) (str "1.2.0_debug") (by decide)
    { major := some 1, minor := some 2, patch := some (some 0) } (by rfl)

theorem lookupF_fsWrite_ne {p q c : Str} {fs : List (Str × Str)} (h : q ≠ p) :
    lookupF p (fsWrite q c fs) = lookupF p fs := by
  simp [fsWrite, lookupF, h]

/-- C9: when the folder for the resolved version already exists under the
builds root, `buildVersion` stops at the `mkdir` step with the
already-exists error, and every file stored under that folder's path is left
exactly as it was (only the two manifest files, which live outside the
folder, were rewritten before the failure). -/
theorem C9_folder_exists (cfg : BuildCfg) (tauriPath : Str) (tauriDir : List (Str × Str))
    (version : Str) (type : BuildType) (st : BState) (versions : List AppVersion) (nv : Str)
    (hV : getVersions st.dirs = Except.ok versions)
    (hNv : getPatchedVersion version versions = Except.ok nv)
    (hMem : (nv ++ getVersionSuffix type) ∈ st.dirs)
    (hc : List.isPrefixOf (joinPath cfg.buildsPath (nv ++ getVersionSuffix type) ++ str "/")
      cfg.cargoTomlPath = false)
    (hp : List.isPrefixOf (joinPath cfg.buildsPath (nv ++ getVersionSuffix type) ++ str "/")
      cfg.packageJsonPath = false) :
    (buildVersion cfg tauriPath tauriDir version type st).2 =
      some ((str "EEXIST: file already exists, mkdir " ++
        joinPath cfg.buildsPath (nv ++ getVersionSuffix type)).asString) ∧
    ∀ p, List.isPrefixOf (joinPath cfg.buildsPath (nv ++ getVersionSuffix type) ++ str "/") p = true →
      lookupF p (buildVersion cfg tauriPath tauriDir version type st).1.files = lookupF p st.files := by
  constructor
  · simp [buildVersion, hV, hNv, hMem]
  · intro p hpre
    have hnec : cfg.cargoTomlPath ≠ p := by
      intro he
      rw [he] at hc
      rw [hpre] at hc
      exact Bool.noConfusion hc
    have hnep : cfg.packageJsonPath ≠ p := by
      intro he
      rw [he] at hp
      rw [hpre] at hp
      exact Bool.noConfusion hp
    simp [buildVersion, hV, hNv, hMem, lookupF_fsWrite_ne hnep, lookupF_fsWrite_ne hnec]

/-- C9 (witness): a concrete builds root whose listing makes the resolver
produce "1.2.0" while the folder "1.2.0_release" is already present — the run
fails with the already-exists error and a file under that folder keeps its
(absent) content. -/
theorem C9_folder_exists_witness :
    (buildVersion { buildsPath := str "b", cargoTomlPath := str "cargo", packageJsonPath := str "pkg" }
        (str "t") [] (str "1.2") BuildType.RELEASE
        { dirs := [str "1.2.0_release", str "x.y_release"], files := [] }).2 =
      some ((str "EEXIST: file already exists, mkdir " ++
        joinPath (str "b") (str "1.2.0" ++ getVersionSuffix BuildType.RELEASE)).asString) ∧
    lookupF (joinPath (str "b") (str "1.2.0" ++ getVersionSuffix BuildType.RELEASE) ++ str "/" ++ str "a.zip")
      (buildVersion { buildsPath := str "b", cargoTomlPath := str "cargo", packageJsonPath := str "pkg" }
        (str "t") [] (str "1.2") BuildType.RELEASE
        { dirs := [str "1.2.0_release", str "x.y_release"], files := [] }).1.files =
    lookupF (joinPath (str "b") (str "1.2.0" ++ getVersionSuffix BuildType.RELEASE) ++ str "/" ++ str "a.zip")
      ([] : List (Str × Str)) :=
  have h := C9_folder_exists
    { buildsPath := str "b", cargoTomlPath := str "cargo", packageJsonPath := str "pkg" }
    (str "t") [] (str "1.2") BuildType.RELEASE
    { dirs := [str "1.2.0_release", str "x.y_release"], files := [] }
    [{ type := BuildType.RELEASE, version := { major := none, minor := none, patch := none } },
     { type := BuildType.RELEASE, version := { major := some 1, minor := some 2, patch := some (some 0) } }]
    (str "1.2.0") (by rfl) (by rfl) (by decide) (by decide) (by decide)
  ⟨h.1, h.2 (joinPath (str "b") (str "1.2.0" ++ getVersionSuffix BuildType.RELEASE) ++ str "/" ++ str "a.zip")
    (by decide)⟩
